import Mathlib

/-!
Verification of the BitGlider note store (`notes_app/app.py`) against its
specification.  The Excel worksheet that backs the store is modelled as a
list of data rows (the header row is never treated as data); each cell holds
either the empty value, a text value, or an integer value, mirroring the
values openpyxl hands back to the Python code.  Timestamps are opaque
strings, exactly as the code treats them.  The cryptographic primitives
(PBKDF2-HMAC-SHA256 and Fernet) are external library calls, so they are
modelled as abstract parameters; the payload framing, key encoding and
plaintext serialisation implemented in the repository are embedded
concretely.
-/

/-- A worksheet cell value as the Python code observes it: `None`, a string,
or an integer. -/
inductive Cell where
  | none
  | str (s : String)
  | int (n : Int)
deriving DecidableEq

/-- One data row of the Notes worksheet, with the five columns
ID, Title, Content, DateCreated, LastModified. -/
structure Row where
  id : Cell
  title : Cell
  content : Cell
  dateCreated : Cell
  lastModified : Cell
deriving DecidableEq

/-- A note dictionary as produced by `load_notes`, all values stringified. -/
structure Note where
  id : String
  title : String
  content : String
  date_created : String
  last_modified : String
deriving DecidableEq

/-- Python truthiness test `not value` for a cell: `None`, the empty string
and the integer 0 are falsy. -/
def pyFalsy : Cell → Bool
  | Cell.none => true
  | Cell.str s => s == ""
  | Cell.int n => n == 0

/-- Decimal digit character, as used when rendering integers. -/
def digitChar (d : Nat) : Char := Nat.digitChar d

/-- Fuel-driven rendering of a natural number to decimal digits; the fuel is
always chosen larger than the number, which makes the function total and
kernel-reducible. -/
def natDigitsFuel : Nat → Nat → List Char
  | 0, _ => []
  | fuel + 1, n =>
    if n < 10 then [digitChar n]
    else natDigitsFuel fuel (n / 10) ++ [digitChar (n % 10)]

/-- Decimal rendering of a natural number. -/
def natStr (n : Nat) : String := ⟨natDigitsFuel (n + 1) n⟩

/-- Rendering of a Python integer by `str`: an optional minus sign followed
by the decimal digits of the absolute value. -/
def intStr (i : Int) : String :=
  if i < 0 then "-" ++ natStr i.natAbs else natStr i.natAbs

/-- Stringification `str(value)` of a cell value: `str(None)` is `"None"`,
strings are returned as they are, integers render in decimal. -/
def cellStr : Cell → String
  | Cell.none => "None"
  | Cell.str s => s
  | Cell.int n => intStr n

/-- Python expression `value or ""` applied to a cell and then consumed as
text: falsy cells collapse to the empty string. -/
def orEmpty (c : Cell) : String := if pyFalsy c then "" else cellStr c

/-- The note dictionary built from one worksheet row by `load_notes`. -/
def noteOfRow (r : Row) : Note :=
  { id := cellStr r.id
    title := orEmpty r.title
    content := orEmpty r.content
    date_created := orEmpty r.dateCreated
    last_modified := orEmpty r.lastModified }

/-- Embedding of `load_notes`: walk the data rows in order, skip every row
whose ID cell is falsy, and build a note dictionary from each kept row. -/
def load_notes : List Row → List Note
  | [] => []
  | r :: rs => if pyFalsy r.id then load_notes rs else noteOfRow r :: load_notes rs

/-- Whitespace characters stripped by Python `str.strip` and ignored by
`int` around a numeric literal. -/
def isPySpace (c : Char) : Bool :=
  c == ' ' || c == '\t' || c == '\n' || c == '\r' || c == '\x0b' || c == '\x0c'

/-- Strip leading and trailing whitespace from a character list. -/
def stripChars (cs : List Char) : List Char :=
  ((cs.dropWhile isPySpace).reverse.dropWhile isPySpace).reverse

/-- Embedding of Python `str.strip()`. -/
def pyStrip (s : String) : String := ⟨stripChars s.data⟩

/-- Test for a decimal digit character. -/
def isDigitChar (c : Char) : Bool := '0' ≤ c && c ≤ '9'

/-- Numeric value of a decimal digit character. -/
def digitVal (c : Char) : Nat := c.toNat - 48

/-- Value of a list of decimal digit characters, most significant first. -/
def parseDigits (cs : List Char) : Nat :=
  cs.foldl (fun a c => a * 10 + digitVal c) 0

/-- Every character is a digit or an underscore. -/
def allDigitUnderscore (cs : List Char) : Bool :=
  cs.all (fun c => isDigitChar c || c == '_')

/-- No two adjacent underscores occur. -/
def noAdjUnd : List Char → Bool
  | [] => true
  | [_] => true
  | a :: b :: rest => !(a == '_' && b == '_') && noAdjUnd (b :: rest)

/-- A digit string acceptable to Python `int` after sign handling: nonempty,
first and last characters are digits, every character is a digit or an
underscore, and underscores are never adjacent (so each underscore sits
between two digits). -/
def pyIntDigits (cs : List Char) : Bool :=
  !cs.isEmpty && isDigitChar (cs.headD '_') && isDigitChar (cs.getLastD '_') &&
    allDigitUnderscore cs && noAdjUnd cs

/-- Embedding of Python `int(s)` on a string: strip surrounding whitespace,
accept an optional sign, require a valid digit string, and evaluate the
digits with underscores removed.  Failure models the `ValueError` raised on
non-numeric input. -/
def pyInt (s : String) : Option Int :=
  match stripChars s.data with
  | '-' :: rest =>
    if pyIntDigits rest then some (-(parseDigits (rest.filter (fun c => c != '_')) : Int))
    else Option.none
  | '+' :: rest =>
    if pyIntDigits rest then some ((parseDigits (rest.filter (fun c => c != '_')) : Int))
    else Option.none
  | rest =>
    if pyIntDigits rest then some ((parseDigits (rest.filter (fun c => c != '_')) : Int))
    else Option.none

/-- The list of `int(note["id"])` values of a note list, in order; fails as
soon as one ID string does not parse, mirroring the generator inside
`get_next_id`. -/
def idsOf : List Note → Option (List Int)
  | [] => some []
  | n :: ns =>
    match pyInt n.id, idsOf ns with
    | some v, some vs => some (v :: vs)
    | _, _ => Option.none

/-- Embedding of `get_next_id`: 1 on an empty note list, otherwise one more
than the maximum of the integer values of all IDs; fails when some ID does
not parse as an integer. -/
def get_next_id (notes : List Note) : Option Int :=
  if notes.isEmpty then some 1
  else
    match idsOf notes with
    | some (v :: vs) => some (vs.foldl max v + 1)
    | _ => Option.none

/-- The in-place mutation `save_note` performs on a matched row: title and
content become the supplied values, LastModified becomes the current time,
ID and DateCreated are untouched. -/
def updatedRow (r : Row) (title content now : String) : Row :=
  { r with title := Cell.str title, content := Cell.str content,
           lastModified := Cell.str now }

/-- The scan of the update branch of `save_note`: find the first row whose
stringified ID cell equals the requested ID and rewrite it in place;
fail when no row matches. -/
def updateFirst (note_id title content now : String) : List Row → Option (List Row)
  | [] => Option.none
  | r :: rs =>
    if cellStr r.id == note_id then some (updatedRow r title content now :: rs)
    else (updateFirst note_id title content now rs).map (fun rs2 => r :: rs2)

/-- Embedding of `save_note`.  A truthy `note_id` first tries the in-place
update scan; when that finds no row, or when `note_id` is absent or empty,
a fresh ID is computed over the loaded notes and a new row is appended with
DateCreated and LastModified both set to the current time.  The result is
the new sheet together with the returned ID string; failure models the
`ValueError` escaping from `get_next_id`. -/
def save_note (note_id : Option String) (title content now : String)
    (sheet : List Row) : Option (List Row × String) :=
  let updated :=
    match note_id with
    | some nid =>
      if nid == "" then Option.none
      else (updateFirst nid title content now sheet).map (fun s => (s, nid))
    | Option.none => Option.none
  match updated with
  | some res => some res
  | Option.none =>
    match get_next_id (load_notes sheet) with
    | some newId =>
      some (sheet ++ [{ id := Cell.int newId, title := Cell.str title,
                        content := Cell.str content, dateCreated := Cell.str now,
                        lastModified := Cell.str now }], intStr newId)
    | Option.none => Option.none

/-- Embedding of `delete_note`: remove the first row whose stringified ID
cell equals the requested ID; leave the sheet unchanged when none matches. -/
def delete_note (note_id : String) : List Row → List Row
  | [] => []
  | r :: rs => if cellStr r.id == note_id then rs else r :: delete_note note_id rs

/-- Embedding of `find_note`: the first loaded note whose ID string equals
the requested ID. -/
def find_note (note_id : String) (sheet : List Row) : Option Note :=
  (load_notes sheet).find? (fun n => n.id == note_id)

/-- Embedding of the `/save` route handler: the form may carry a note ID,
a title and a content field; the title defaults to "Untitled" when the field
is missing or strips to the empty string, the content defaults to the empty
string, and the store operation `save_note` is then invoked. -/
def save_route (form_note_id form_title form_content : Option String)
    (now : String) (sheet : List Row) : Option (List Row × String) :=
  let title0 := pyStrip (form_title.getD "Untitled")
  let title := if title0 == "" then "Untitled" else title0
  let content := pyStrip (form_content.getD "")
  save_note form_note_id title content now sheet

/-- UTF-8 encoding of one character as a list of byte values, as Python
`str.encode("utf-8")` produces it. -/
def utf8Bytes (c : Char) : List Nat :=
  let n := c.toNat
  if n < 128 then [n]
  else if n < 2048 then [192 + n / 64, 128 + n % 64]
  else if n < 65536 then [224 + n / 4096, 128 + n / 64 % 64, 128 + n % 64]
  else [240 + n / 262144, 128 + n / 4096 % 64, 128 + n / 64 % 64, 128 + n % 64]

/-- UTF-8 encoding of a string as a list of byte values. -/
def strBytes (s : String) : List Nat := (s.data.map utf8Bytes).flatten

/-- The standard base64 alphabet as byte values. -/
def b64Alphabet : List Nat :=
  (String.toList "ABCDEFGHIJKLMNOPQRSTUVWXYZabcdefghijklmnopqrstuvwxyz0123456789+/").map
    Char.toNat

/-- Character of the base64 alphabet at a sextet value. -/
def b64Char (n : Nat) : Nat := b64Alphabet.getD n 0

/-- Base64 encoding of a byte list, with `=` padding, as Python
`base64.b64encode` produces it. -/
def b64encode : List Nat → List Nat
  | [] => []
  | [a] => [b64Char (a / 4), b64Char (a % 4 * 16), 61, 61]
  | [a, b] => [b64Char (a / 4), b64Char (a % 4 * 16 + b / 16), b64Char (b % 16 * 4), 61]
  | a :: b :: c :: rest =>
    b64Char (a / 4) :: b64Char (a % 4 * 16 + b / 16) ::
      b64Char (b % 16 * 4 + c / 64) :: b64Char (c % 64) :: b64encode rest

/-- URL-safe base64 encoding, as Python `base64.urlsafe_b64encode`: the
standard encoding with `+` replaced by `-` and `/` replaced by `_`. -/
def urlsafeB64encode (bs : List Nat) : List Nat :=
  (b64encode bs).map (fun b => if b == 43 then 45 else if b == 47 then 95 else b)

/-- Index of a byte in the base64 alphabet. -/
def b64ValAux : List Nat → Nat → Nat → Option Nat
  | [], _, _ => Option.none
  | a :: rest, i, c => if a == c then some i else b64ValAux rest (i + 1) c

/-- Sextet value of a base64 alphabet character. -/
def b64Val (c : Nat) : Option Nat := b64ValAux b64Alphabet 0 c

/-- Base64 decoding of a byte list produced by `b64encode`. -/
def b64decode : List Nat → Option (List Nat)
  | [] => some []
  | c1 :: c2 :: c3 :: c4 :: rest =>
    if c3 == 61 && c4 == 61 && rest.isEmpty then
      match b64Val c1, b64Val c2 with
      | some v1, some v2 => some [v1 * 4 + v2 / 16]
      | _, _ => Option.none
    else if c4 == 61 && rest.isEmpty then
      match b64Val c1, b64Val c2, b64Val c3 with
      | some v1, some v2, some v3 => some [v1 * 4 + v2 / 16, v2 % 16 * 16 + v3 / 4]
      | _, _, _ => Option.none
    else
      match b64Val c1, b64Val c2, b64Val c3, b64Val c4, b64decode rest with
      | some v1, some v2, some v3, some v4, some tail =>
        some ((v1 * 4 + v2 / 16) :: (v2 % 16 * 16 + v3 / 4) :: (v3 % 4 * 64 + v4) :: tail)
      | _, _, _, _, _ => Option.none
  | _ => Option.none

/-- The external cryptographic primitives the exporter calls: the PBKDF2
key derivation (taking password bytes, salt bytes, an iteration count and an
output length) and Fernet encryption (taking key bytes and message bytes to
a ciphertext token).  Both live in external libraries, so they enter the
model as abstract deterministic functions. -/
structure CryptoPrims where
  pbkdf2sha256 : List Nat → List Nat → Nat → Nat → List Nat
  fernetEncrypt : List Nat → List Nat → List Nat

/-- Embedding of `derive_key`: run PBKDF2-HMAC-SHA256 with 390000 iterations
and a 32-byte output over the UTF-8 password and the salt, then encode the
result with URL-safe base64 to obtain the Fernet key. -/
def derive_key (cp : CryptoPrims) (password : String) (salt : List Nat) : List Nat :=
  urlsafeB64encode (cp.pbkdf2sha256 (strBytes password) salt 390000 32)

/-- Embedding of `encrypt_note`.  The fresh 16-byte salt drawn from
`os.urandom` is passed in as a parameter, modelling its nondeterminism.
The plaintext is assembled exactly as the four f-strings in the source
assemble it, the token is Fernet encryption under the derived key, and the
payload is the base64 salt, a newline, and the token. -/
def encrypt_note (cp : CryptoPrims) (salt : List Nat) (note : Note)
    (password : String) : List Nat :=
  let key := derive_key cp password salt
  let plaintext :=
    ("Title: " ++ note.title ++ "\n") ++
    ("Created: " ++ note.date_created ++ "\n") ++
    ("Last Modified: " ++ note.last_modified ++ "\n\n") ++
    note.content
  let token := cp.fernetEncrypt key (strBytes plaintext)
  b64encode salt ++ strBytes "\n" ++ token

/-- The plaintext block exactly as section 3 of the specification words it:
`Title: <title>\nCreated: <date_created>\nLast Modified: <last_modified>\n\n<content>`. -/
def specPlaintextBlock (n : Note) : String :=
  "Title: " ++ n.title ++ "\nCreated: " ++ n.date_created ++ "\nLast Modified: " ++
    n.last_modified ++ "\n\n" ++ n.content

/-- The payload as the specification describes it: base64 of the salt, a
newline byte, then the token obtained by encrypting the plaintext block
under the key derived via PBKDF2-HMAC-SHA256 with 390000 iterations and
32-byte output from the UTF-8 password and the salt. -/
def specPayload (cp : CryptoPrims) (salt : List Nat) (note : Note)
    (password : String) : List Nat :=
  b64encode salt ++ 10 ::
    cp.fernetEncrypt (urlsafeB64encode (cp.pbkdf2sha256 (strBytes password) salt 390000 32))
      (strBytes (specPlaintextBlock note))

/-- Fernet primitives together with the authenticated-encryption laws the
specification relies on: decryption under the encrypting key recovers the
message, and decryption under any other key fails. -/
structure FernetScheme extends CryptoPrims where
  fernetDecrypt : List Nat → List Nat → Option (List Nat)
  decrypt_encrypt : ∀ key msg, fernetDecrypt key (fernetEncrypt key msg) = some msg
  decrypt_wrongKey : ∀ key key2 msg, key2 ≠ key →
    fernetDecrypt key2 (fernetEncrypt key msg) = Option.none

/-- Modelled from the spec: no decryption routine exists in the repository
(section 4.2 declares decryption an out-of-scope client-side concern), so
the consumer of an exported payload is modelled from the payload description
of section 3: split the payload at the first newline, base64-decode the
prefix to recover the salt, derive the key from the supplied password and
that salt, and Fernet-decrypt the remainder. -/
def decryptPayload (S : FernetScheme) (password : String)
    (payload : List Nat) : Option (List Nat) :=
  let pre := payload.takeWhile (fun b => b != 10)
  let token := (payload.dropWhile (fun b => b != 10)).drop 1
  match b64decode pre with
  | some salt => S.fernetDecrypt (derive_key S.toCryptoPrims password salt) token
  | Option.none => Option.none

/-- The ten decimal digit characters. -/
def digitCharList : List Char := ['0', '1', '2', '3', '4', '5', '6', '7', '8', '9']

lemma digitChar_mem {d : Nat} (h : d < 10) : digitChar d ∈ digitCharList := by
  interval_cases d <;> decide

lemma digit_facts : ∀ c ∈ digitCharList, isDigitChar c = true ∧ isPySpace c = false ∧
    c ≠ '-' ∧ c ≠ '+' ∧ (c == '_') = false ∧ (c != '_') = true := by decide

lemma digitVal_digitChar {d : Nat} (h : d < 10) : digitVal (digitChar d) = d := by
  interval_cases d <;> decide

lemma parseDigits_append (xs : List Char) (c : Char) :
    parseDigits (xs ++ [c]) = parseDigits xs * 10 + digitVal c := by
  simp [parseDigits, List.foldl_append]

lemma natDigitsFuel_spec : ∀ (fuel n : Nat), n < fuel →
    natDigitsFuel fuel n ≠ [] ∧ (∀ c ∈ natDigitsFuel fuel n, c ∈ digitCharList) ∧
      parseDigits (natDigitsFuel fuel n) = n := by
  intro fuel
  induction fuel with
  | zero => intro n hn; omega
  | succ f ih =>
    intro n hn
    by_cases h10 : n < 10
    · refine ⟨by simp [natDigitsFuel, h10], ?_, ?_⟩
      · intro c hc
        simp [natDigitsFuel, h10] at hc
        subst hc
        exact digitChar_mem h10
      · simp [natDigitsFuel, h10, parseDigits, digitVal_digitChar h10]
    · have hrw : natDigitsFuel (f + 1) n =
          natDigitsFuel f (n / 10) ++ [digitChar (n % 10)] := by
        simp [natDigitsFuel, h10]
      have hdiv : n / 10 < f := by omega
      obtain ⟨hne, hmem, hval⟩ := ih (n / 10) hdiv
      rw [hrw]
      refine ⟨by simp, ?_, ?_⟩
      · intro c hc
        rcases List.mem_append.1 hc with h | h
        · exact hmem c h
        · simp at h
          subst h
          exact digitChar_mem (by omega)
      · rw [parseDigits_append, hval, digitVal_digitChar (by omega)]
        omega

lemma natStr_spec (n : Nat) : (natStr n).data ≠ [] ∧
    (∀ c ∈ (natStr n).data, c ∈ digitCharList) ∧ parseDigits (natStr n).data = n :=
  natDigitsFuel_spec (n + 1) n (by omega)

lemma dropWhile_eq_self_of {α : Type} (p : α → Bool) :
    ∀ (l : List α), (∀ x ∈ l, p x = false) → l.dropWhile p = l
  | [], _ => rfl
  | a :: l, h => by simp [List.dropWhile_cons, h a (by simp)]

lemma stripChars_eq_self (cs : List Char) (h : ∀ c ∈ cs, isPySpace c = false) :
    stripChars cs = cs := by
  unfold stripChars
  rw [dropWhile_eq_self_of _ cs h, dropWhile_eq_self_of, List.reverse_reverse]
  intro c hc
  exact h c (by simpa using hc)

lemma noAdjUnd_of_no_underscore :
    ∀ (l : List Char), (∀ c ∈ l, (c == '_') = false) → noAdjUnd l = true
  | [], _ => rfl
  | [_], _ => rfl
  | a :: b :: rest, h => by
    have ha := h a (by simp)
    have hrec := noAdjUnd_of_no_underscore (b :: rest)
      (fun c hc => h c (by simp at hc ⊢; tauto))
    simp [noAdjUnd, ha, hrec]

lemma getLastD_mem {α : Type} : ∀ (l : List α) (d : α), l ≠ [] → l.getLastD d ∈ l
  | [], _, h => absurd rfl h
  | [a], d, _ => by simp [List.getLastD]
  | a :: b :: l, d, _ => by
    have h := getLastD_mem (b :: l) a (by simp)
    have hrw : (a :: b :: l).getLastD d = (b :: l).getLastD a := rfl
    rw [hrw]
    exact List.mem_cons_of_mem a h

lemma pyIntDigits_digits (cs : List Char) (hne : cs ≠ [])
    (h : ∀ c ∈ cs, c ∈ digitCharList) : pyIntDigits cs = true := by
  unfold pyIntDigits
  have h1 : cs.isEmpty = false := by
    cases cs with
    | nil => exact absurd rfl hne
    | cons a l => rfl
  have h2 : isDigitChar (cs.headD '_') = true := by
    cases cs with
    | nil => exact absurd rfl hne
    | cons a l => exact (digit_facts a (h a (by simp))).1
  have h3 : isDigitChar (cs.getLastD '_') = true :=
    (digit_facts _ (h _ (getLastD_mem cs '_' hne))).1
  have h4 : allDigitUnderscore cs = true := by
    unfold allDigitUnderscore
    rw [List.all_eq_true]
    intro c hc
    simp [(digit_facts c (h c hc)).1]
  have h5 : noAdjUnd cs = true :=
    noAdjUnd_of_no_underscore cs (fun c hc => (digit_facts c (h c hc)).2.2.2.2.1)
  simp at h2 h3
  simp [h1, h2, h3, h4, h5]

lemma pyInt_natStr (n : Nat) : pyInt (natStr n) = some (n : Int) := by
  obtain ⟨hne, hmem, hval⟩ := natStr_spec n
  have hstrip : stripChars (natStr n).data = (natStr n).data :=
    stripChars_eq_self _ (fun c hc => (digit_facts c (hmem c hc)).2.1)
  have hfilter : ((natStr n).data.filter (fun c => c != '_')) = (natStr n).data := by
    rw [List.filter_eq_self]
    intro c hc
    exact (digit_facts c (hmem c hc)).2.2.2.2.2
  unfold pyInt
  rw [hstrip]
  split
  · rename_i rest heq
    have : '-' ∈ (natStr n).data := by rw [heq]; simp
    exact absurd rfl (digit_facts '-' (hmem '-' this)).2.2.1
  · rename_i rest heq
    have : '+' ∈ (natStr n).data := by rw [heq]; simp
    exact absurd rfl (digit_facts '+' (hmem '+' this)).2.2.2.1
  · rw [if_pos (pyIntDigits_digits _ hne hmem), hfilter, hval]

lemma pyInt_intStr {i : Int} (h : 0 ≤ i) : pyInt (intStr i) = some i := by
  unfold intStr
  rw [if_neg (by omega), pyInt_natStr]
  congr 1
  omega

lemma orEmpty_str (s : String) : orEmpty (Cell.str s) = s := by
  by_cases h : s = ""
  · simp [orEmpty, pyFalsy, h]
  · simp [orEmpty, pyFalsy, cellStr, h]

lemma load_notes_eq : ∀ (sheet : List Row),
    load_notes sheet = (sheet.filter (fun r => !pyFalsy r.id)).map noteOfRow
  | [] => rfl
  | r :: rs => by
    by_cases h : pyFalsy r.id
    · simp [load_notes, h, List.filter_cons, load_notes_eq rs]
    · simp [load_notes, h, List.filter_cons, load_notes_eq rs]

lemma load_notes_append (l₁ l₂ : List Row) :
    load_notes (l₁ ++ l₂) = load_notes l₁ ++ load_notes l₂ := by
  simp [load_notes_eq, List.filter_append]

lemma forall₂_mem_left {α β : Type} {R : α → β → Prop} {l₁ : List α} {l₂ : List β}
    (h : List.Forall₂ R l₁ l₂) : ∀ a ∈ l₁, ∃ b ∈ l₂, R a b := by
  induction h with
  | nil => intro a ha; cases ha
  | cons hr _ ih =>
    intro a ha
    rcases List.mem_cons.1 ha with rfl | ha2
    · exact ⟨_, by simp, hr⟩
    · obtain ⟨b, hb, hrb⟩ := ih a ha2
      exact ⟨b, by simp [hb], hrb⟩

lemma forall₂_mem_right {α β : Type} {R : α → β → Prop} {l₁ : List α} {l₂ : List β}
    (h : List.Forall₂ R l₁ l₂) : ∀ b ∈ l₂, ∃ a ∈ l₁, R a b := by
  induction h with
  | nil => intro b hb; cases hb
  | cons hr _ ih =>
    intro b hb
    rcases List.mem_cons.1 hb with rfl | hb2
    · exact ⟨_, by simp, hr⟩
    · obtain ⟨a, ha, hra⟩ := ih b hb2
      exact ⟨a, by simp [ha], hra⟩

lemma idsOf_some_of_forall : ∀ (notes : List Note),
    (∀ m ∈ notes, (pyInt m.id).isSome = true) → ∃ vs, idsOf notes = some vs
  | [], _ => ⟨[], rfl⟩
  | n :: ns, h => by
    obtain ⟨v, hv⟩ := Option.isSome_iff_exists.1 (h n (by simp))
    obtain ⟨vs, hvs⟩ := idsOf_some_of_forall ns (fun m hm => h m (by simp [hm]))
    exact ⟨v :: vs, by simp [idsOf, hv, hvs]⟩

lemma idsOf_forall₂ : ∀ {notes : List Note} {vs : List Int}, idsOf notes = some vs →
    List.Forall₂ (fun m v => pyInt m.id = some v) notes vs := by
  intro notes
  induction notes with
  | nil =>
    intro vs h
    simp only [idsOf, Option.some.injEq] at h
    subst h
    exact List.Forall₂.nil
  | cons n ns ih =>
    intro vs h
    cases hp : pyInt n.id with
    | none =>
      simp only [idsOf, hp] at h
      exact Option.noConfusion h
    | some v =>
      cases hq : idsOf ns with
      | none =>
        simp only [idsOf, hp, hq] at h
        exact Option.noConfusion h
      | some ws =>
        simp only [idsOf, hp, hq, Option.some.injEq] at h
        subst h
        exact List.Forall₂.cons hp (ih hq)

lemma le_foldl_max : ∀ (l : List Int) (a : Int), a ≤ l.foldl max a
  | [], a => le_refl a
  | x :: l, a => by
    simp only [List.foldl_cons]
    calc a ≤ max a x := le_max_left a x
    _ ≤ _ := le_foldl_max l (max a x)

lemma mem_le_foldl_max : ∀ (l : List Int) (a x : Int), x ∈ l → x ≤ l.foldl max a
  | [], _, _, hx => absurd hx (List.not_mem_nil _)
  | y :: l, a, x, hx => by
    simp only [List.foldl_cons]
    rcases List.mem_cons.1 hx with rfl | h
    · calc x ≤ max a x := le_max_right a x
      _ ≤ _ := le_foldl_max l (max a x)
    · exact mem_le_foldl_max l (max a y) x h

lemma get_next_id_some (notes : List Note)
    (h : ∀ m ∈ notes, (pyInt m.id).isSome = true) :
    ∃ k, get_next_id notes = some k := by
  cases notes with
  | nil => exact ⟨1, rfl⟩
  | cons n ns =>
    obtain ⟨vs, hvs⟩ := idsOf_some_of_forall (n :: ns) h
    have hlen := (idsOf_forall₂ hvs).length_eq
    cases vs with
    | nil => simp at hlen
    | cons v ws => exact ⟨ws.foldl max v + 1, by simp [get_next_id, hvs]⟩

lemma get_next_id_none (notes : List Note) {m : Note} (hm : m ∈ notes)
    (h : pyInt m.id = Option.none) : get_next_id notes = Option.none := by
  cases notes with
  | nil => cases hm
  | cons n ns =>
    cases hq : idsOf (n :: ns) with
    | some vs =>
      obtain ⟨v, _, hv⟩ := forall₂_mem_left (idsOf_forall₂ hq) m hm
      rw [h] at hv
      cases hv
    | none => simp [get_next_id, hq]

lemma get_next_id_gt {notes : List Note} {k : Int} (h : get_next_id notes = some k) :
    ∀ m ∈ notes, ∀ v, pyInt m.id = some v → v < k := by
  intro m hm v hv
  cases notes with
  | nil => cases hm
  | cons n ns =>
    rw [show get_next_id (n :: ns) = (match idsOf (n :: ns) with
        | some (v :: vs) => some (vs.foldl max v + 1)
        | _ => Option.none) from by simp [get_next_id]] at h
    cases hq : idsOf (n :: ns) with
    | none => rw [hq] at h; cases h
    | some vs =>
      rw [hq] at h
      cases vs with
      | nil => cases h
      | cons v0 ws =>
        simp only [Option.some.injEq] at h
        obtain ⟨w, hw, hpw⟩ := forall₂_mem_left (idsOf_forall₂ hq) m hm
        rw [hv] at hpw
        have hvw : v = w := by cases hpw; rfl
        subst hvw
        rcases List.mem_cons.1 hw with rfl | hw2
        · have := le_foldl_max ws v
          omega
        · have := mem_le_foldl_max ws v0 v hw2
          omega

lemma get_next_id_pos {notes : List Note} {k : Int} (h : get_next_id notes = some k)
    (hnn : ∀ m ∈ notes, ∀ v, pyInt m.id = some v → 0 ≤ v) : 1 ≤ k := by
  cases notes with
  | nil =>
    simp only [get_next_id, List.isEmpty_nil, if_true, Option.some.injEq] at h
    omega
  | cons n ns =>
    rw [show get_next_id (n :: ns) = (match idsOf (n :: ns) with
        | some (v :: vs) => some (vs.foldl max v + 1)
        | _ => Option.none) from by simp [get_next_id]] at h
    cases hq : idsOf (n :: ns) with
    | none => rw [hq] at h; cases h
    | some vs =>
      rw [hq] at h
      cases vs with
      | nil => cases h
      | cons v0 ws =>
        simp only [Option.some.injEq] at h
        obtain ⟨m, hm, hpm⟩ := forall₂_mem_right (idsOf_forall₂ hq) v0 (by simp)
        have h0 : 0 ≤ v0 := hnn m hm v0 hpm
        have := le_foldl_max ws v0
        omega

/-- The row `save_note` appends on its creation path. -/
def newRow (k : Int) (t c now : String) : Row :=
  { id := Cell.int k, title := Cell.str t, content := Cell.str c,
    dateCreated := Cell.str now, lastModified := Cell.str now }

/-- All listed records carry an ID string that parses as a nonnegative
integer; this is the data-model invariant of section 3 of the spec (record
IDs are positive integers), relaxed to nonnegative values. -/
def GoodSheet (sheet : List Row) : Prop :=
  ∀ m ∈ load_notes sheet, ∃ v : Int, pyInt m.id = some v ∧ 0 ≤ v

lemma updateFirst_eq_none {nid t c now : String} :
    ∀ (sheet : List Row), (∀ r ∈ sheet, cellStr r.id ≠ nid) →
      updateFirst nid t c now sheet = Option.none
  | [], _ => rfl
  | r :: rs, h => by
    have hr : (cellStr r.id == nid) = false := by simp [h r (by simp)]
    simp [updateFirst, hr, updateFirst_eq_none rs (fun x hx => h x (by simp [hx]))]

lemma updateFirst_spec (nid t c now : String) : ∀ (sheet : List Row) (i : Nat)
    (hi : i < sheet.length), cellStr (sheet.get ⟨i, hi⟩).id = nid →
    (∀ r ∈ sheet.take i, cellStr r.id ≠ nid) →
    updateFirst nid t c now sheet =
      some (sheet.set i (updatedRow (sheet.get ⟨i, hi⟩) t c now)) := by
  intro sheet
  induction sheet with
  | nil => intro i hi; simp at hi
  | cons r rs ih =>
    intro i hi hmatch hfirst
    cases i with
    | zero =>
      have hb : (cellStr r.id == nid) = true := by simpa using hmatch
      simp [updateFirst, hb]
    | succ j =>
      have hr : cellStr r.id ≠ nid := hfirst r (by simp [List.take_succ_cons])
      have hb : (cellStr r.id == nid) = false := by simp [hr]
      have hj : j < rs.length := by simpa using hi
      have hm2 : cellStr (rs.get ⟨j, hj⟩).id = nid := by simpa using hmatch
      have hf2 : ∀ x ∈ rs.take j, cellStr x.id ≠ nid := by
        intro x hx
        exact hfirst x (by simp [List.take_succ_cons, hx])
      simp only [updateFirst, hb, Bool.false_eq_true, if_false]
      rw [ih j hj hm2 hf2]
      simp [List.set_cons_succ]

lemma save_note_update {nid t c now : String} {sheet s2 : List Row}
    (hnid : nid ≠ "") (hupd : updateFirst nid t c now sheet = some s2) :
    save_note (some nid) t c now sheet = some (s2, nid) := by
  have hb : (nid == "") = false := by simp [hnid]
  simp [save_note, hb, hupd]

lemma save_note_create (note_id : Option String) (t c now : String) (sheet : List Row)
    (hskip : ∀ nid, note_id = some nid → nid ≠ "" →
      updateFirst nid t c now sheet = Option.none) :
    save_note note_id t c now sheet =
      match get_next_id (load_notes sheet) with
      | some k => some (sheet ++ [newRow k t c now], intStr k)
      | Option.none => Option.none := by
  cases note_id with
  | none => simp [save_note, newRow]
  | some nid =>
    by_cases h : nid = ""
    · simp [save_note, h, newRow]
    · have hb : (nid == "") = false := by simp [h]
      simp [save_note, hb, hskip nid rfl h, newRow]

lemma save_note_create_cases {note_id : Option String} {t c now : String}
    {sheet s2 : List Row} {rid : String}
    (hskip : ∀ nid, note_id = some nid → nid ≠ "" →
      updateFirst nid t c now sheet = Option.none)
    (h : save_note note_id t c now sheet = some (s2, rid)) :
    ∃ k, get_next_id (load_notes sheet) = some k ∧
      s2 = sheet ++ [newRow k t c now] ∧ rid = intStr k := by
  rw [save_note_create note_id t c now sheet hskip] at h
  cases hg : get_next_id (load_notes sheet) with
  | none =>
    rw [hg] at h
    exact Option.noConfusion h
  | some k =>
    rw [hg] at h
    simp only [Option.some.injEq, Prod.mk.injEq] at h
    exact ⟨k, rfl, h.1.symm, h.2.symm⟩

lemma noteOfRow_newRow (k : Int) (t c now : String) :
    noteOfRow (newRow k t c now) =
      { id := intStr k, title := t, content := c,
        date_created := now, last_modified := now } := by
  simp [noteOfRow, newRow, orEmpty_str, cellStr]

lemma load_notes_newRow_append (sheet : List Row) {k : Int} (hk : k ≠ 0)
    (t c now : String) :
    load_notes (sheet ++ [newRow k t c now]) =
      load_notes sheet ++ [noteOfRow (newRow k t c now)] := by
  rw [load_notes_append]
  have hfalsy : pyFalsy (newRow k t c now).id = false := by
    simp [newRow, pyFalsy, hk]
  simp [load_notes, hfalsy]

lemma save_creates {note_id : Option String} {t c now : String} {sheet : List Row}
    (hgood : GoodSheet sheet)
    (hnomatch : ∀ nid, note_id = some nid → nid ≠ "" →
      ∀ r ∈ sheet, cellStr r.id ≠ nid) :
    ∃ k : Int,
      get_next_id (load_notes sheet) = some k ∧ 1 ≤ k ∧
      save_note note_id t c now sheet = some (sheet ++ [newRow k t c now], intStr k) ∧
      (∀ m ∈ load_notes sheet, ∀ v, pyInt m.id = some v → v < k) := by
  have hsome : ∀ m ∈ load_notes sheet, (pyInt m.id).isSome = true := by
    intro m hm
    obtain ⟨v, hv, _⟩ := hgood m hm
    simp [hv]
  obtain ⟨k, hk⟩ := get_next_id_some _ hsome
  have hnn : ∀ m ∈ load_notes sheet, ∀ v, pyInt m.id = some v → 0 ≤ v := by
    intro m hm v hv
    obtain ⟨w, hw, h0⟩ := hgood m hm
    rw [hv] at hw
    cases hw
    exact h0
  have hpos := get_next_id_pos hk hnn
  have hsave := save_note_create note_id t c now sheet
    (fun nid heq hne => updateFirst_eq_none sheet (hnomatch nid heq hne))
  rw [hk] at hsave
  exact ⟨k, hk, hpos, hsave, get_next_id_gt hk⟩

lemma find?_append_of_none {α : Type} (p : α → Bool) :
    ∀ (l₁ l₂ : List α), (∀ x ∈ l₁, p x = false) →
      List.find? p (l₁ ++ l₂) = List.find? p l₂
  | [], _, _ => rfl
  | a :: l, l₂, h => by
    simp only [List.cons_append, List.find?_cons, h a (by simp)]
    exact find?_append_of_none p l l₂ (fun x hx => h x (by simp [hx]))

lemma updateFirst_rows {nid t c now : String} :
    ∀ (sheet : List Row) {s2 : List Row}, updateFirst nid t c now sheet = some s2 →
      ∀ r ∈ s2, r ∈ sheet ∨ r.title = Cell.str t
  | [], _, h => Option.noConfusion h
  | r :: rs, s2, h => by
    by_cases hb : (cellStr r.id == nid) = true
    · simp only [updateFirst, hb, if_true, Option.some.injEq] at h
      subst h
      intro x hx
      rcases List.mem_cons.1 hx with rfl | hx2
      · exact Or.inr rfl
      · exact Or.inl (List.mem_cons_of_mem r hx2)
    · have hb2 : (cellStr r.id == nid) = false := by simpa using hb
      simp only [updateFirst, hb2, Bool.false_eq_true, if_false] at h
      cases hrec : updateFirst nid t c now rs with
      | none => rw [hrec] at h; exact Option.noConfusion h
      | some s3 =>
        rw [hrec] at h
        simp only [Option.map_some', Option.some.injEq] at h
        subst h
        intro x hx
        rcases List.mem_cons.1 hx with rfl | hx2
        · exact Or.inl (by simp)
        · rcases updateFirst_rows rs hrec x hx2 with h1 | h1
          · exact Or.inl (List.mem_cons_of_mem r h1)
          · exact Or.inr h1

lemma save_note_rows {note_id : Option String} {t c now : String}
    {sheet s2 : List Row} {rid : String}
    (h : save_note note_id t c now sheet = some (s2, rid)) :
    ∀ r ∈ s2, r ∈ sheet ∨ r.title = Cell.str t := by
  have hcreate : ∀ (hskip : ∀ nid, note_id = some nid → nid ≠ "" →
      updateFirst nid t c now sheet = Option.none),
      ∀ r ∈ s2, r ∈ sheet ∨ r.title = Cell.str t := by
    intro hskip
    obtain ⟨k, _, hs2, _⟩ := save_note_create_cases hskip h
    subst hs2
    intro r hr
    rcases List.mem_append.1 hr with h1 | h1
    · exact Or.inl h1
    · simp only [List.mem_singleton] at h1
      subst h1
      exact Or.inr rfl
  cases note_id with
  | none => exact hcreate (fun nid heq => Option.noConfusion heq)
  | some nid =>
    by_cases hne : nid = ""
    · exact hcreate (by intro nid2 heq hne2; cases heq; exact absurd hne hne2)
    · cases hupd : updateFirst nid t c now sheet with
      | some s3 =>
        rw [save_note_update hne hupd] at h
        simp only [Option.some.injEq, Prod.mk.injEq] at h
        rw [← h.1]
        exact updateFirst_rows sheet hupd
      | none => exact hcreate (by intro nid2 heq hne2; cases heq; exact hupd)

/-- A sequence of `save_note` calls with no explicit ID: each entry of the
argument list provides the title, content and current time of one call.
The result is the final sheet and the returned IDs in call order. -/
def saveTrace (sheet : List Row) :
    List (String × String × String) → Option (List Row × List String)
  | [] => some (sheet, [])
  | (t, c, n) :: rest =>
    match save_note Option.none t c n sheet with
    | some (s1, rid) =>
      match saveTrace s1 rest with
      | some (s2, rids) => some (s2, rid :: rids)
      | Option.none => Option.none
    | Option.none => Option.none

/-- Some listed record of the sheet has an ID string parsing to this
integer value. -/
def presentIn (sheet : List Row) (v : Int) : Prop :=
  ∃ m ∈ load_notes sheet, pyInt m.id = some v

lemma goodSheet_append_newRow {sheet : List Row} {k : Int} (hgood : GoodSheet sheet)
    (hpos : 1 ≤ k) (t c now : String) : GoodSheet (sheet ++ [newRow k t c now]) := by
  intro m hm
  rw [load_notes_newRow_append sheet (by omega) t c now] at hm
  rcases List.mem_append.1 hm with h1 | h1
  · exact hgood m h1
  · simp only [List.mem_singleton] at h1
    subst h1
    refine ⟨k, ?_, by omega⟩
    rw [noteOfRow_newRow]
    exact pyInt_intStr (by omega)

lemma presentIn_append_newRow {sheet : List Row} {k : Int} (hpos : 1 ≤ k)
    (t c now : String) : presentIn (sheet ++ [newRow k t c now]) k := by
  refine ⟨noteOfRow (newRow k t c now), ?_, ?_⟩
  · rw [load_notes_newRow_append sheet (by omega) t c now]
    simp
  · rw [noteOfRow_newRow]
    exact pyInt_intStr (by omega)

lemma presentIn_mono {sheet : List Row} {k : Int} {v : Int} (t c now : String)
    (h : presentIn sheet v) : presentIn (sheet ++ [newRow k t c now]) v := by
  obtain ⟨m, hm, hv⟩ := h
  refine ⟨m, ?_, hv⟩
  rw [load_notes_append]
  exact List.mem_append.2 (Or.inl hm)

lemma trace_increasing : ∀ (args : List (String × String × String)) (sheet : List Row),
    GoodSheet sheet →
    ∃ s2 ns, saveTrace sheet args = some (s2, ns.map intStr) ∧
      List.Pairwise (fun a b => a < b) ns ∧ (∀ u ∈ ns, (1 : Int) ≤ u) ∧
      (∀ w, presentIn sheet w → ∀ u ∈ ns, w < u) ∧ GoodSheet s2
  | [], sheet, hgood => ⟨sheet, [], rfl, by simp, by simp, by simp, hgood⟩
  | (t, c, n) :: rest, sheet, hgood => by
    obtain ⟨k, hk, hpos, hsave, hlt⟩ :=
      @save_creates Option.none t c n sheet hgood (fun nid h => Option.noConfusion h)
    have hgood2 := goodSheet_append_newRow hgood hpos t c n
    obtain ⟨s2, ns, htrace, hpw, hge, hbound, hgood3⟩ := trace_increasing rest _ hgood2
    refine ⟨s2, k :: ns, ?_, ?_, ?_, ?_, hgood3⟩
    · simp only [saveTrace, hsave, htrace, List.map_cons]
    · rw [List.pairwise_cons]
      exact ⟨fun u hu => hbound k (presentIn_append_newRow hpos t c n) u hu, hpw⟩
    · intro u hu
      rcases List.mem_cons.1 hu with rfl | hu2
      · exact hpos
      · exact hge u hu2
    · intro w hw u hu
      rcases List.mem_cons.1 hu with rfl | hu2
      · obtain ⟨m, hm, hv⟩ := hw
        exact hlt m hm w hv
      · exact hbound w (presentIn_mono t c n hw) u hu2

lemma delete_note_noop {nid : String} : ∀ (sheet : List Row),
    (∀ r ∈ sheet, cellStr r.id ≠ nid) → delete_note nid sheet = sheet
  | [], _ => rfl
  | r :: rs, h => by
    have hb : (cellStr r.id == nid) = false := by simp [h r (by simp)]
    simp [delete_note, hb, delete_note_noop rs (fun x hx => h x (by simp [hx]))]

lemma find_note_eq_none {nid : String} {sheet : List Row}
    (h : ∀ m ∈ load_notes sheet, m.id ≠ nid) : find_note nid sheet = Option.none := by
  unfold find_note
  rw [List.find?_eq_none]
  intro m hm
  simp [h m hm]

lemma load_notes_mem {sheet : List Row} {m : Note} (hm : m ∈ load_notes sheet) :
    ∃ x ∈ sheet, pyFalsy x.id = false ∧ m = noteOfRow x := by
  rw [load_notes_eq] at hm
  obtain ⟨x, hx, hxm⟩ := List.mem_map.1 hm
  obtain ⟨hxs, hpf⟩ := List.mem_filter.1 hx
  exact ⟨x, hxs, by simpa using hpf, hxm.symm⟩

lemma delete_then_find {nid : String} : ∀ (sheet : List Row),
    sheet.countP (fun r => cellStr r.id == nid) ≤ 1 →
    find_note nid (delete_note nid sheet) = Option.none
  | [], _ => rfl
  | r :: rs, hcount => by
    by_cases hb : (cellStr r.id == nid) = true
    · rw [List.countP_cons_of_pos _ rs hb] at hcount
      have hzero : rs.countP (fun r => cellStr r.id == nid) = 0 := by omega
      have hnone : ∀ x ∈ rs, ¬((cellStr x.id == nid) = true) :=
        List.countP_eq_zero.1 hzero
      simp only [delete_note, hb, if_true]
      apply find_note_eq_none
      intro m hm
      obtain ⟨x, hx, _, hmx⟩ := load_notes_mem hm
      have := hnone x hx
      simp only [hmx, noteOfRow]
      intro hcontra
      exact this (by simp [hcontra])
    · have hb2 : (cellStr r.id == nid) = false := by simpa using hb
      rw [List.countP_cons_of_neg _ rs (by simp [hb2])] at hcount
      have hrec := delete_then_find rs hcount
      simp only [delete_note, hb2, Bool.false_eq_true, if_false]
      unfold find_note at hrec ⊢
      by_cases hf : pyFalsy r.id
      · simp [load_notes, hf, hrec]
      · simp only [load_notes, hf, Bool.false_eq_true, if_false, List.find?_cons]
        have : ((noteOfRow r).id == nid) = false := hb2
        simp [this, hrec]

lemma b64Alphabet_length : b64Alphabet.length = 64 := by decide

lemma b64Char_ne_ten (s : Nat) : b64Char s ≠ 10 := by
  by_cases h : s < 64
  · exact (by decide : ∀ t, t < 64 → b64Char t ≠ 10) s h
  · unfold b64Char
    rw [List.getD_eq_default _ _ (by rw [b64Alphabet_length]; omega)]
    omega

lemma b64Char_ne_61 (s : Nat) : b64Char s ≠ 61 := by
  by_cases h : s < 64
  · exact (by decide : ∀ t, t < 64 → b64Char t ≠ 61) s h
  · unfold b64Char
    rw [List.getD_eq_default _ _ (by rw [b64Alphabet_length]; omega)]
    omega

lemma b64Val_b64Char {s : Nat} (h : s < 64) : b64Val (b64Char s) = some s :=
  (by decide : ∀ t, t < 64 → b64Val (b64Char t) = some t) s h

lemma b64encode_ne_ten : ∀ (xs : List Nat), ∀ y ∈ b64encode xs, (y != 10) = true
  | [] => by simp [b64encode]
  | [a] => by
    intro y hy
    simp only [b64encode, List.mem_cons, List.not_mem_nil, or_false] at hy
    rcases hy with rfl | rfl | rfl | rfl <;>
      simp [b64Char_ne_ten]
  | [a, b] => by
    intro y hy
    simp only [b64encode, List.mem_cons, List.not_mem_nil, or_false] at hy
    rcases hy with rfl | rfl | rfl | rfl <;>
      simp [b64Char_ne_ten]
  | a :: b :: c :: rest => by
    intro y hy
    simp only [b64encode, List.mem_cons] at hy
    rcases hy with rfl | rfl | rfl | rfl | hmem
    · simp [b64Char_ne_ten]
    · simp [b64Char_ne_ten]
    · simp [b64Char_ne_ten]
    · simp [b64Char_ne_ten]
    · exact b64encode_ne_ten rest y hmem

lemma b64_roundtrip : ∀ (xs : List Nat), (∀ x ∈ xs, x < 256) →
    b64decode (b64encode xs) = some xs
  | [], _ => rfl
  | [a], h => by
    have ha : a < 256 := h a (by simp)
    simp only [b64encode, b64decode]
    rw [if_pos (by simp)]
    rw [b64Val_b64Char (by omega), b64Val_b64Char (by omega)]
    simp
    omega
  | [a, b], h => by
    have ha : a < 256 := h a (by simp)
    have hb : b < 256 := h b (by simp)
    simp only [b64encode, b64decode]
    rw [if_neg (by simp [b64Char_ne_61])]
    rw [if_pos (by simp)]
    rw [b64Val_b64Char (by omega), b64Val_b64Char (by omega), b64Val_b64Char (by omega)]
    simp
    omega
  | a :: b :: c :: rest, h => by
    have ha : a < 256 := h a (by simp)
    have hb : b < 256 := h b (by simp)
    have hc : c < 256 := h c (by simp)
    have hrec := b64_roundtrip rest (fun x hx => h x (by simp [hx]))
    simp only [b64encode, b64decode]
    rw [if_neg (by simp [b64Char_ne_61]), if_neg (by simp [b64Char_ne_61])]
    rw [b64Val_b64Char (by omega), b64Val_b64Char (by omega),
      b64Val_b64Char (by omega), b64Val_b64Char (by omega), hrec]
    simp
    omega

lemma takeWhile_append_stop {α : Type} (p : α → Bool) :
    ∀ (l₁ : List α) (a : α) (l₂ : List α), (∀ x ∈ l₁, p x = true) → p a = false →
      (l₁ ++ a :: l₂).takeWhile p = l₁
  | [], a, l₂, _, ha => by simp [List.takeWhile_cons, ha]
  | x :: l, a, l₂, hall, ha => by
    simp only [List.cons_append, List.takeWhile_cons, hall x (by simp), if_true]
    rw [takeWhile_append_stop p l a l₂ (fun y hy => hall y (by simp [hy])) ha]

lemma dropWhile_append_stop {α : Type} (p : α → Bool) :
    ∀ (l₁ : List α) (a : α) (l₂ : List α), (∀ x ∈ l₁, p x = true) → p a = false →
      (l₁ ++ a :: l₂).dropWhile p = a :: l₂
  | [], a, l₂, _, ha => by simp [List.dropWhile_cons, ha]
  | x :: l, a, l₂, hall, ha => by
    simp only [List.cons_append, List.dropWhile_cons, hall x (by simp), if_true]
    exact dropWhile_append_stop p l a l₂ (fun y hy => hall y (by simp [hy])) ha

lemma strBytes_newline : strBytes "\n" = [10] := by decide

lemma strBytes_split (a b : String) : strBytes (a ++ b) = strBytes a ++ strBytes b := by
  unfold strBytes
  rw [show (a ++ b).data = a.data ++ b.data from rfl, List.map_append, List.flatten_append]

lemma plaintext_bytes_eq (note : Note) :
    strBytes (("Title: " ++ note.title ++ "\n") ++ ("Created: " ++ note.date_created ++ "\n") ++
      ("Last Modified: " ++ note.last_modified ++ "\n\n") ++ note.content) =
    strBytes (specPlaintextBlock note) := by
  unfold specPlaintextBlock
  simp only [strBytes_split]
  have h1 : strBytes "\nCreated: " = strBytes "\n" ++ strBytes "Created: " := by decide
  have h2 : strBytes "\nLast Modified: " = strBytes "\n" ++ strBytes "Last Modified: " := by
    decide
  rw [h1, h2]
  simp [List.append_assoc]

lemma encrypt_note_eq_spec (cp : CryptoPrims) (salt : List Nat) (note : Note)
    (pw : String) : encrypt_note cp salt note pw = specPayload cp salt note pw := by
  simp only [encrypt_note, specPayload, derive_key, strBytes_newline]
  rw [plaintext_bytes_eq]
  simp

lemma decryptPayload_encrypt (S : FernetScheme) (salt : List Nat) (note : Note)
    (pw pw2 : String) (hsalt : ∀ b ∈ salt, b < 256) :
    decryptPayload S pw2 (encrypt_note S.toCryptoPrims salt note pw) =
      S.fernetDecrypt (derive_key S.toCryptoPrims pw2 salt)
        (S.fernetEncrypt (derive_key S.toCryptoPrims pw salt)
          (strBytes (specPlaintextBlock note))) := by
  rw [encrypt_note_eq_spec]
  unfold decryptPayload specPayload
  have hall : ∀ x ∈ b64encode salt, (x != 10) = true := b64encode_ne_ten salt
  rw [takeWhile_append_stop _ _ _ _ hall (by decide),
    dropWhile_append_stop _ _ _ _ hall (by decide)]
  simp only [List.drop_succ_cons, List.drop_zero, b64_roundtrip salt hsalt]
  rfl

/-- A toy implementation of the abstract primitives, used only to evaluate
the generic theorems at concrete inputs: the key derivation concatenates
password and salt, and encryption prefixes the message with the key and its
length. -/
def demoPrims : CryptoPrims :=
  { pbkdf2sha256 := fun pw salt _ _ => pw ++ salt
    fernetEncrypt := fun key msg => key.length :: key ++ msg }

/-- Decryption for the toy primitives: check the stored key against the
supplied one and strip it off, failing on any mismatch. -/
def demoDecrypt (key tok : List Nat) : Option (List Nat) :=
  match tok with
  | [] => Option.none
  | n :: rest =>
    if n == key.length && rest.take n == key then some (rest.drop n) else Option.none

lemma demo_decrypt_encrypt (key msg : List Nat) :
    demoDecrypt key (demoPrims.fernetEncrypt key msg) = some msg := by
  simp [demoDecrypt, demoPrims, List.take_left, List.drop_left]

lemma demo_decrypt_wrong (key key2 msg : List Nat) (h : key2 ≠ key) :
    demoDecrypt key2 (demoPrims.fernetEncrypt key msg) = Option.none := by
  simp only [demoDecrypt, demoPrims]
  have htake : (key ++ msg).take key.length = key := List.take_left key msg
  simp [htake]
  exact fun _ => Ne.symm h

/-- The toy primitives assembled into a scheme satisfying the
authenticated-encryption laws. -/
def demoScheme : FernetScheme :=
  { toCryptoPrims := demoPrims
    fernetDecrypt := demoDecrypt
    decrypt_encrypt := demo_decrypt_encrypt
    decrypt_wrongKey := demo_decrypt_wrong }

/-- A sample note used by concrete instantiations. -/
def demoNote : Note :=
  { id := "1", title := "T", content := "C", date_created := "D", last_modified := "L" }

/-- A sample 16-byte salt. -/
def demoSalt : List Nat := [0, 1, 2, 3, 4, 5, 6, 7, 8, 9, 10, 11, 12, 13, 14, 15]

/-- A sample sheet with two well-formed rows. -/
def demoSheet : List Row :=
  [{ id := Cell.int 1, title := Cell.str "a", content := Cell.str "b",
     dateCreated := Cell.str "c", lastModified := Cell.str "d" },
   { id := Cell.str "2", title := Cell.str "e", content := Cell.str "f",
     dateCreated := Cell.str "g", lastModified := Cell.str "h" }]

lemma get_next_id_isSome_iff (notes : List Note) :
    (get_next_id notes).isSome = true ↔ ∀ m ∈ notes, (pyInt m.id).isSome = true := by
  constructor
  · intro h m hm
    by_contra hno
    rw [Option.not_isSome_iff_eq_none] at hno
    rw [get_next_id_none notes hm hno] at h
    simp at h
  · intro h
    obtain ⟨k, hk⟩ := get_next_id_some notes h
    simp [hk]

/-- C1: when save is called with a truthy ID and a row with that ID exists
(the first such row sitting at index i), that row is rewritten in place —
title and content become exactly the supplied values, LastModified becomes
the current time (hence at least the previous value whenever the clock is
monotone), the ID and DateCreated cells are untouched — every other row is
unchanged, and the same ID string is returned. -/
theorem C1_save_updates_existing_row (nid t c now : String) (sheet : List Row)
    (i : Nat) (hi : i < sheet.length) (hnid : nid ≠ "")
    (hmatch : cellStr (sheet.get ⟨i, hi⟩).id = nid)
    (hfirst : ∀ r ∈ sheet.take i, cellStr r.id ≠ nid)
    (hclock : cellStr (sheet.get ⟨i, hi⟩).lastModified ≤ now) :
    save_note (some nid) t c now sheet =
      some (sheet.set i (updatedRow (sheet.get ⟨i, hi⟩) t c now), nid) ∧
    (updatedRow (sheet.get ⟨i, hi⟩) t c now).title = Cell.str t ∧
    (updatedRow (sheet.get ⟨i, hi⟩) t c now).content = Cell.str c ∧
    (updatedRow (sheet.get ⟨i, hi⟩) t c now).lastModified = Cell.str now ∧
    (updatedRow (sheet.get ⟨i, hi⟩) t c now).id = (sheet.get ⟨i, hi⟩).id ∧
    (updatedRow (sheet.get ⟨i, hi⟩) t c now).dateCreated =
      (sheet.get ⟨i, hi⟩).dateCreated ∧
    cellStr (sheet.get ⟨i, hi⟩).lastModified ≤
      cellStr (updatedRow (sheet.get ⟨i, hi⟩) t c now).lastModified ∧
    ∀ j, ∀ hj : j < sheet.length, j ≠ i →
      (sheet.set i (updatedRow (sheet.get ⟨i, hi⟩) t c now)).get
        ⟨j, by simpa using hj⟩ = sheet.get ⟨j, hj⟩ := by
  refine ⟨save_note_update hnid (updateFirst_spec nid t c now sheet i hi hmatch hfirst),
    rfl, rfl, rfl, rfl, rfl, ?_, ?_⟩
  · exact hclock
  · intro j hj hji
    simp only [List.get_eq_getElem]
    exact List.getElem_set_ne (Ne.symm hji) _

theorem C1_witness :
    ("1" : String) ≠ "" ∧
    save_note (some "1") "T2" "C2" "d1"
      [{ id := Cell.int 1, title := Cell.str "T1", content := Cell.str "C1",
         dateCreated := Cell.str "d0", lastModified := Cell.str "d1" }] =
      some ([{ id := Cell.int 1, title := Cell.str "T2", content := Cell.str "C2",
               dateCreated := Cell.str "d0", lastModified := Cell.str "d1" }], "1") :=
  ⟨by decide,
    (C1_save_updates_existing_row "1" "T2" "C2" "d1"
      [{ id := Cell.int 1, title := Cell.str "T1", content := Cell.str "C1",
         dateCreated := Cell.str "d0", lastModified := Cell.str "d1" }]
      0 (by decide) (by decide) (by decide)
      (by intro r hr; simp at hr) (le_refl _)).1⟩

/-- C2: when save is called with no ID, or with a truthy ID matching no
row, it appends exactly one row whose ID is the fresh ID computed by
nextId over the loaded records, with DateCreated and LastModified both set
to the current time, returns that ID in string form, and a subsequent find
on the returned ID yields a record whose title and content are exactly what
was saved; the store is assumed to satisfy the data-model invariant that
listed record IDs parse as nonnegative integers. -/
theorem C2_save_creates_and_find_roundtrip (note_id : Option String)
    (t c now : String) (sheet : List Row) (hgood : GoodSheet sheet)
    (hnomatch : ∀ nid, note_id = some nid → nid ≠ "" →
      ∀ r ∈ sheet, cellStr r.id ≠ nid) :
    ∃ k : Int,
      get_next_id (load_notes sheet) = some k ∧
      save_note note_id t c now sheet = some (sheet ++ [newRow k t c now], intStr k) ∧
      find_note (intStr k) (sheet ++ [newRow k t c now]) =
        some { id := intStr k, title := t, content := c,
               date_created := now, last_modified := now } := by
  obtain ⟨k, hk, hpos, hsave, hlt⟩ := save_creates hgood hnomatch
  refine ⟨k, hk, hsave, ?_⟩
  unfold find_note
  rw [load_notes_newRow_append sheet (by omega) t c now]
  rw [find?_append_of_none]
  · rw [noteOfRow_newRow]
    simp [List.find?_cons]
  · intro m hm
    obtain ⟨v, hv, _⟩ := hgood m hm
    have hvk := hlt m hm v hv
    by_cases he : m.id = intStr k
    · exfalso
      rw [he] at hv
      have : some k = some v :=
        (pyInt_intStr (by omega : (0 : Int) ≤ k)).symm.trans hv
      have hk2 : k = v := by
        injection this
      omega
    · simp [he]

theorem C2_witness :
    GoodSheet [] ∧
    ∃ k : Int,
      get_next_id (load_notes []) = some k ∧
      save_note Option.none "Shopping" "milk, eggs" "t1" [] =
        some ([] ++ [newRow k "Shopping" "milk, eggs" "t1"], intStr k) ∧
      find_note (intStr k) ([] ++ [newRow k "Shopping" "milk, eggs" "t1"]) =
        some { id := intStr k, title := "Shopping", content := "milk, eggs",
               date_created := "t1", last_modified := "t1" } :=
  ⟨fun m hm => absurd hm (List.not_mem_nil m),
    C2_save_creates_and_find_roundtrip Option.none "Shopping" "milk, eggs" "t1" []
      (fun m hm => absurd hm (List.not_mem_nil m))
      (fun _ h => Option.noConfusion h)⟩

/-- C3 fails as stated: starting from the store state holding one row whose
ID cell is the text "-1", nextId yields 0, the appended row has the falsy
ID cell 0 and is invisible to listing, so two successive saves with no
explicit ID both return "0" — the returned IDs are not pairwise distinct,
hence not strictly increasing. -/
theorem C3_counterexample :
    ∃ s2,
      saveTrace
        [{ id := Cell.str "-1", title := Cell.str "x", content := Cell.str "y",
           dateCreated := Cell.str "d", lastModified := Cell.str "d" }]
        [("a", "b", "t1"), ("c", "d", "t2")] = some (s2, ["0", "0"]) ∧
      ¬ List.Pairwise (fun a b : String => a ≠ b) ["0", "0"] := by
  refine ⟨[{ id := Cell.str "-1", title := Cell.str "x", content := Cell.str "y",
             dateCreated := Cell.str "d", lastModified := Cell.str "d" },
           { id := Cell.int 0, title := Cell.str "a", content := Cell.str "b",
             dateCreated := Cell.str "t1", lastModified := Cell.str "t1" },
           { id := Cell.int 0, title := Cell.str "c", content := Cell.str "d",
             dateCreated := Cell.str "t2", lastModified := Cell.str "t2" }],
    by decide, by decide⟩

/-- C3 amended: starting from any store state whose listed records all have
ID strings parsing as nonnegative integers (in particular any state
respecting the data model's positive-ID invariant), the IDs returned by a
sequence of saves with no explicit ID are strictly increasing as integers
and pairwise distinct as strings. -/
theorem C3_amended_ids_strictly_increase (args : List (String × String × String))
    (sheet : List Row) (hgood : GoodSheet sheet) :
    ∃ s2 ns, saveTrace sheet args = some (s2, ns.map intStr) ∧
      List.Pairwise (fun a b : Int => a < b) ns ∧
      List.Pairwise (fun a b : String => a ≠ b) (ns.map intStr) := by
  obtain ⟨s2, ns, htrace, hpw, hge, _, _⟩ := trace_increasing args sheet hgood
  refine ⟨s2, ns, htrace, hpw, ?_⟩
  rw [List.pairwise_map]
  refine List.Pairwise.imp_of_mem ?_ hpw
  intro a b ha hb hab heq
  have h1 := pyInt_intStr (by have := hge a ha; omega : (0 : Int) ≤ a)
  have h2 := pyInt_intStr (by have := hge b hb; omega : (0 : Int) ≤ b)
  rw [heq] at h1
  have : some a = some b := h1.symm.trans h2
  have hab2 : a = b := by injection this
  omega

theorem C3_witness :
    ∃ s2 ns,
      saveTrace [] [("a", "b", "t1"), ("c", "d", "t2")] = some (s2, ns.map intStr) ∧
      List.Pairwise (fun a b : Int => a < b) ns ∧
      List.Pairwise (fun a b : String => a ≠ b) (ns.map intStr) :=
  C3_amended_ids_strictly_increase [("a", "b", "t1"), ("c", "d", "t2")] []
    (fun m hm => absurd hm (List.not_mem_nil m))

/-- C4 fails as stated: in the store holding a row whose ID cell is the
integer 0 followed by a row whose ID cell is the text "0", the listed
records have pairwise distinct IDs, yet deleting "0" removes the hidden
integer-0 row (string comparison matches it first), after which find "0"
still returns a record instead of absent. -/
theorem C4_counterexample :
    List.Pairwise (fun a b : Note => a.id ≠ b.id)
      (load_notes
        [{ id := Cell.int 0, title := Cell.str "a", content := Cell.str "b",
           dateCreated := Cell.str "c", lastModified := Cell.str "d" },
         { id := Cell.str "0", title := Cell.str "e", content := Cell.str "f",
           dateCreated := Cell.str "g", lastModified := Cell.str "h" }]) ∧
    find_note "0"
      (delete_note "0"
        [{ id := Cell.int 0, title := Cell.str "a", content := Cell.str "b",
           dateCreated := Cell.str "c", lastModified := Cell.str "d" },
         { id := Cell.str "0", title := Cell.str "e", content := Cell.str "f",
           dateCreated := Cell.str "g", lastModified := Cell.str "h" }]) =
      some { id := "0", title := "e", content := "f",
             date_created := "g", last_modified := "h" } := by decide

/-- C4 amended: find on an ID carried by no listed record returns absent;
delete on an ID matching no row at all (by string comparison over raw ID
cells) leaves the store unchanged; and for stores in which at most one row's
ID cell stringifies to the given ID, delete followed by find on that ID
returns absent. -/
theorem C4_amended_missing_id_handling (nid : String) (sheet : List Row) :
    ((∀ m ∈ load_notes sheet, m.id ≠ nid) → find_note nid sheet = Option.none) ∧
    ((∀ r ∈ sheet, cellStr r.id ≠ nid) → delete_note nid sheet = sheet) ∧
    (sheet.countP (fun r => cellStr r.id == nid) ≤ 1 →
      find_note nid (delete_note nid sheet) = Option.none) :=
  ⟨fun h => find_note_eq_none h,
   fun h => delete_note_noop sheet h,
   fun h => delete_then_find sheet h⟩

theorem C4_witness :
    find_note "9" demoSheet = Option.none ∧
    delete_note "9" demoSheet = demoSheet ∧
    find_note "1" (delete_note "1" demoSheet) = Option.none :=
  ⟨(C4_amended_missing_id_handling "9" demoSheet).1 (by decide),
   (C4_amended_missing_id_handling "9" demoSheet).2.1 (by decide),
   (C4_amended_missing_id_handling "1" demoSheet).2.2 (by decide)⟩

/-- C5: listing keeps exactly the rows whose ID cell is truthy, in file row
order, never failing on the skipped rows, and each kept row's optional text
fields collapse to the empty string whenever their cells are falsy. -/
theorem C5_listing_skips_falsy_ids (sheet : List Row) :
    load_notes sheet = (sheet.filter (fun r => !pyFalsy r.id)).map noteOfRow ∧
    (∀ r : Row, pyFalsy r.title = true → (noteOfRow r).title = "") ∧
    (∀ r : Row, pyFalsy r.content = true → (noteOfRow r).content = "") ∧
    (∀ r : Row, pyFalsy r.dateCreated = true → (noteOfRow r).date_created = "") ∧
    (∀ r : Row, pyFalsy r.lastModified = true → (noteOfRow r).last_modified = "") := by
  refine ⟨load_notes_eq sheet, ?_, ?_, ?_, ?_⟩ <;> intro r h <;>
    simp [noteOfRow, orEmpty, h]

theorem C5_witness :
    load_notes
      [{ id := Cell.none, title := Cell.str "zz", content := Cell.str "zz",
         dateCreated := Cell.str "zz", lastModified := Cell.str "zz" },
       { id := Cell.int 1, title := Cell.none, content := Cell.none,
         dateCreated := Cell.none, lastModified := Cell.none }] =
      (([{ id := Cell.none, title := Cell.str "zz", content := Cell.str "zz",
           dateCreated := Cell.str "zz", lastModified := Cell.str "zz" },
         { id := Cell.int 1, title := Cell.none, content := Cell.none,
           dateCreated := Cell.none, lastModified := Cell.none }].filter
          (fun r => !pyFalsy r.id)).map noteOfRow) ∧
    (noteOfRow { id := Cell.int 1, title := Cell.none, content := Cell.none,
                 dateCreated := Cell.none, lastModified := Cell.none }).title = "" :=
  ⟨(C5_listing_skips_falsy_ids _).1,
   (C5_listing_skips_falsy_ids []).2.1
     { id := Cell.int 1, title := Cell.none, content := Cell.none,
       dateCreated := Cell.none, lastModified := Cell.none } (by decide)⟩

/-- C6: for every note, password and salt, and any implementation of the
external primitives, the payload produced by the exporter is exactly base64
of the salt, a newline byte, and the Fernet token obtained by encrypting
the UTF-8 plaintext block Title/Created/Last Modified/blank line/content
under the key that URL-safe-base64-encodes the 32-byte PBKDF2-HMAC-SHA256
output at 390000 iterations over the UTF-8 password and the salt. -/
theorem C6_payload_structure (cp : CryptoPrims) (salt : List Nat) (note : Note)
    (password : String) :
    encrypt_note cp salt note password = specPayload cp salt note password :=
  encrypt_note_eq_spec cp salt note password

/-- C7: decrypting the payload with the key derived from the same password
and the salt embedded in the payload recovers exactly the plaintext block
of the note, and decrypting with a key derived from a different password
(one whose derived key differs) fails rather than returning wrong
plaintext; the scheme is any one satisfying the authenticated-encryption
laws. -/
theorem C7_roundtrip_and_wrong_password (S : FernetScheme) (salt : List Nat)
    (note : Note) (pw pw2 : String) (hsalt : ∀ b ∈ salt, b < 256)
    (hkey : derive_key S.toCryptoPrims pw2 salt ≠ derive_key S.toCryptoPrims pw salt) :
    decryptPayload S pw (encrypt_note S.toCryptoPrims salt note pw) =
      some (strBytes (specPlaintextBlock note)) ∧
    decryptPayload S pw2 (encrypt_note S.toCryptoPrims salt note pw) =
      Option.none := by
  constructor
  · rw [decryptPayload_encrypt S salt note pw pw hsalt]
    exact S.decrypt_encrypt _ _
  · rw [decryptPayload_encrypt S salt note pw pw2 hsalt]
    exact S.decrypt_wrongKey _ _ _ hkey

theorem C7_witness :
    (∀ b ∈ demoSalt, b < 256) ∧
    derive_key demoScheme.toCryptoPrims "b" demoSalt ≠
      derive_key demoScheme.toCryptoPrims "a" demoSalt ∧
    decryptPayload demoScheme "a"
        (encrypt_note demoScheme.toCryptoPrims demoSalt demoNote "a") =
      some (strBytes (specPlaintextBlock demoNote)) ∧
    decryptPayload demoScheme "b"
        (encrypt_note demoScheme.toCryptoPrims demoSalt demoNote "a") =
      Option.none :=
  ⟨by decide, by decide,
   (C7_roundtrip_and_wrong_password demoScheme demoSalt demoNote "a" "b"
     (by decide) (by decide)).1,
   (C7_roundtrip_and_wrong_password demoScheme demoSalt demoNote "a" "b"
     (by decide) (by decide)).2⟩

/-- C8: a save submitted through the route with a title that strips to the
empty string reaches the store as the title "Untitled", and the store
itself stores exactly the title it is passed — every row of the resulting
sheet is an untouched row of the old sheet or carries the title cell
"Untitled". -/
theorem C8_empty_title_defaults_to_untitled (form_note_id : Option String)
    (t : String) (form_content : Option String) (now : String) (sheet : List Row)
    (ht : pyStrip t = "") :
    save_route form_note_id (some t) form_content now sheet =
      save_note form_note_id "Untitled" (pyStrip (form_content.getD "")) now sheet ∧
    ∀ s2 rid,
      save_note form_note_id "Untitled" (pyStrip (form_content.getD "")) now sheet =
        some (s2, rid) →
      ∀ r ∈ s2, r ∈ sheet ∨ r.title = Cell.str "Untitled" := by
  constructor
  · unfold save_route
    rw [Option.getD_some, ht]
    simp
  · intro s2 rid h
    exact save_note_rows h

theorem C8_witness :
    pyStrip " " = "" ∧
    save_route Option.none (some " ") Option.none "t1" [] =
      save_note Option.none "Untitled"
        (pyStrip ((Option.none : Option String).getD "")) "t1" [] :=
  ⟨by decide,
   (C8_empty_title_defaults_to_untitled Option.none " " Option.none "t1" []
     (by decide)).1⟩

/-- C9: nextId succeeds exactly when every listed record's ID string parses
as an integer, and a save on the creation path returns an ID exactly when
every listed record's ID parses — a store containing a truthy non-numeric
ID cell makes creation fail with an error instead of returning an ID. -/
theorem C9_creation_total_iff_ids_numeric (notes : List Note) (t c now : String)
    (sheet : List Row) :
    ((get_next_id notes).isSome = true ↔ ∀ m ∈ notes, (pyInt m.id).isSome = true) ∧
    ((save_note Option.none t c now sheet).isSome = true ↔
      ∀ m ∈ load_notes sheet, (pyInt m.id).isSome = true) := by
  refine ⟨get_next_id_isSome_iff notes, ?_⟩
  have h2 := get_next_id_isSome_iff (load_notes sheet)
  rw [save_note_create Option.none t c now sheet (fun nid h => Option.noConfusion h)]
  cases hg : get_next_id (load_notes sheet) with
  | some k =>
    rw [hg] at h2
    simpa using h2
  | none =>
    rw [hg] at h2
    simpa using h2

/-- C10: the update branch matches rows by string comparison over raw ID
cells, including rows invisible to listing: with a single row whose ID cell
is the integer 0, save with the ID "0" updates that hidden row in place and
returns "0", yet find on the returned ID yields absent. -/
theorem C10_hidden_row_update :
    save_note (some "0") "T" "C" "t1"
      [{ id := Cell.int 0, title := Cell.str "a", content := Cell.str "b",
         dateCreated := Cell.str "d0", lastModified := Cell.str "d1" }] =
      some ([{ id := Cell.int 0, title := Cell.str "T", content := Cell.str "C",
               dateCreated := Cell.str "d0", lastModified := Cell.str "t1" }], "0") ∧
    find_note "0"
      [{ id := Cell.int 0, title := Cell.str "T", content := Cell.str "C",
         dateCreated := Cell.str "d0", lastModified := Cell.str "t1" }] =
      Option.none := by decide
/-- Sanity check: the base64 encoder agrees with the reference outputs of
Python base64.b64encode on all three padding shapes. -/
lemma sanity_b64encode :
    b64encode [0, 1, 2] = strBytes "AAEC" ∧
    b64encode [77] = strBytes "TQ==" ∧
    b64encode [77, 97] = strBytes "TWE=" ∧
    b64encode [77, 97, 110, 77] = strBytes "TWFuTQ==" ∧
    urlsafeB64encode [251, 255] = strBytes "-_8=" := by decide

/-- Sanity check: the embedded Python int parser agrees with reference
behaviour of int() on representative accepted and rejected inputs. -/
lemma sanity_pyInt :
    pyInt "12" = some 12 ∧
    pyInt " -3 " = some (-3) ∧
    pyInt "1_0" = some 10 ∧
    pyInt "1__0" = Option.none ∧
    pyInt "abc" = Option.none ∧
    pyInt "" = Option.none ∧
    pyInt "None" = Option.none := by decide

/-- Sanity check: cell stringification and stripping agree with Python str
conversions on representative values. -/
lemma sanity_strings :
    intStr 10 = "10" ∧
    intStr (-3) = "-3" ∧
    cellStr Cell.none = "None" ∧
    pyStrip "  a b " = "a b" := by decide
